import Mathlib

/-! Shallow embedding of src/gpt/model.py: a GPT-2 style decoder-only
transformer (CausalSelfAttention, FeedForward, TransformerBlock, Transformer),
its pretrained-weight importer (Transformer.from_pretrained) and the
DataLoaderLite corpus batcher.

Tensors are total functions out of Fin-indexed shapes into ℚ (exact
arithmetic in place of floating point).  The transcendental scalar
primitives the float code calls (exp, log, sqrt, tanh and the constant
sqrt(2/pi) inside the tanh-approximated GELU) are abstracted into a Prims
record of rational-valued functions; theorems that need analytic facts
about them (positivity of exp, monotonicity of log, log 1 = 0) take those
facts as explicit hypotheses, which the true real functions satisfy.

The masked softmax of the source (masked_fill with -inf followed by
F.softmax) is rendered in exact arithmetic over Option ℚ: a masked score is
none, exp of none is 0, matching exp(-inf) = 0 in the float semantics. -/

namespace GPT

/-- Abstract scalar primitives standing for the real transcendental
functions used by the floating-point source. -/
structure Prims where
  exp : ℚ → ℚ
  log : ℚ → ℚ
  sqrt : ℚ → ℚ
  tanh : ℚ → ℚ
  sqrt2OverPi : ℚ

/-- Model hyperparameters, mirroring the ModelArgs dataclass of the source
(the two fields multiple_of and ffn_dim_multiplier are never read by the
code and are omitted). -/
structure ModelArgs where
  max_seq_len : ℕ
  vocab_size : ℕ
  n_layers : ℕ
  n_heads : ℕ
  n_embd : ℕ

/-- nn.Linear(inF, outF): y_o = sum_i W[o][i] * x[i] + b[o]. -/
structure Linear (inF outF : ℕ) where
  weight : Fin outF → Fin inF → ℚ
  bias : Fin outF → ℚ

def Linear.apply {inF outF : ℕ} (l : Linear inF outF) (x : Fin inF → ℚ) :
    Fin outF → ℚ :=
  fun o => (∑ i, l.weight o i * x i) + l.bias o

/-- nn.Linear(inF, outF, bias=False), used only for lm_head. -/
structure LinearNB (inF outF : ℕ) where
  weight : Fin outF → Fin inF → ℚ

def LinearNB.apply {inF outF : ℕ} (l : LinearNB inF outF) (x : Fin inF → ℚ) :
    Fin outF → ℚ :=
  fun o => ∑ i, l.weight o i * x i

/-- nn.LayerNorm(n): learned scale and shift. -/
structure LayerNorm (n : ℕ) where
  weight : Fin n → ℚ
  bias : Fin n → ℚ

/-- torch's default LayerNorm epsilon, 1e-5. -/
def lnEps : ℚ := 1 / 100000

/-- LayerNorm over the embedding axis: normalize by mean and (biased)
variance, then scale and shift.  The square root is the abstract primitive. -/
def LayerNorm.apply {n : ℕ} (P : Prims) (ln : LayerNorm n) (x : Fin n → ℚ) :
    Fin n → ℚ :=
  let mean : ℚ := (∑ i, x i) / (n : ℚ)
  let var : ℚ := (∑ i, (x i - mean) ^ 2) / (n : ℚ)
  fun i => ln.weight i * ((x i - mean) / P.sqrt (var + lnEps)) + ln.bias i

/-- self.head_dim = config.n_embd // config.n_heads. -/
def ModelArgs.headDim (cfg : ModelArgs) : ℕ := cfg.n_embd / cfg.n_heads

/-- CausalSelfAttention module: the two projections plus the construction
invariant established by the asserts in __init__
(self.head_dim * self.n_heads == self.n_embd). -/
structure CausalSelfAttention (cfg : ModelArgs) where
  c_attn : Linear cfg.n_embd (3 * cfg.n_embd)
  c_proj : Linear cfg.n_embd cfg.n_embd
  hdiv : cfg.headDim * cfg.n_heads = cfg.n_embd

/-- The registered "bias" buffer: torch.tril(torch.ones(L, L)). -/
def attnBias (L : ℕ) : Fin L → Fin L → ℚ :=
  fun i j => if (j : ℕ) ≤ (i : ℕ) then 1 else 0

/-- The slice self.bias[:, :, :T, :T] used in forward (valid view when
T ≤ L, which Transformer.forward has already asserted). -/
def biasSlice (T : ℕ) : Fin T → Fin T → ℚ :=
  fun i j => if (j : ℕ) ≤ (i : ℕ) then 1 else 0

lemma biasSlice_eq_attnBias {L T : ℕ} (hT : T ≤ L) (i j : Fin T) :
    biasSlice T i j =
      attnBias L ⟨i, lt_of_lt_of_le i.isLt hT⟩ ⟨j, lt_of_lt_of_le j.isLt hT⟩ := rfl

/-- qkv = self.c_attn(x), applied row-wise over positions. -/
def qkvOf {cfg : ModelArgs} {T : ℕ} (sa : CausalSelfAttention cfg)
    (x : Fin T → Fin cfg.n_embd → ℚ) : Fin T → Fin (3 * cfg.n_embd) → ℚ :=
  fun t => sa.c_attn.apply (x t)

/-- q, k, v = qkv.split(self.n_embd, dim=2): channels 0..E-1, E..2E-1,
2E..3E-1 respectively. -/
def qOf {cfg : ModelArgs} {T : ℕ} (sa : CausalSelfAttention cfg)
    (x : Fin T → Fin cfg.n_embd → ℚ) : Fin T → Fin cfg.n_embd → ℚ :=
  fun t e => qkvOf sa x t ⟨(e : ℕ), by have h := e.isLt; omega⟩

def kOf {cfg : ModelArgs} {T : ℕ} (sa : CausalSelfAttention cfg)
    (x : Fin T → Fin cfg.n_embd → ℚ) : Fin T → Fin cfg.n_embd → ℚ :=
  fun t e => qkvOf sa x t ⟨cfg.n_embd + (e : ℕ), by have h := e.isLt; omega⟩

def vOf {cfg : ModelArgs} {T : ℕ} (sa : CausalSelfAttention cfg)
    (x : Fin T → Fin cfg.n_embd → ℚ) : Fin T → Fin cfg.n_embd → ℚ :=
  fun t e => qkvOf sa x t ⟨2 * cfg.n_embd + (e : ℕ), by have h := e.isLt; omega⟩

lemma headIdx_lt {hs H E : ℕ} (hdiv : hs * H = E) (h : Fin H) (d : Fin hs) :
    (h : ℕ) * hs + (d : ℕ) < E := by
  have h1 : (h : ℕ) * hs + (d : ℕ) < ((h : ℕ) + 1) * hs := by
    have hd := d.isLt
    calc (h : ℕ) * hs + (d : ℕ) < (h : ℕ) * hs + hs := by omega
    _ = ((h : ℕ) + 1) * hs := by ring
  have h2 : ((h : ℕ) + 1) * hs ≤ H * hs :=
    Nat.mul_le_mul_right hs h.isLt
  have h3 : H * hs = E := by rw [Nat.mul_comm] at hdiv; exact hdiv
  omega

/-- The channel index of head h, inner dimension d, after the
view(B, T, nh, hs) reshape of the last axis: channel = h * hs + d. -/
def headIdx {cfg : ModelArgs} (hdiv : cfg.headDim * cfg.n_heads = cfg.n_embd)
    (h : Fin cfg.n_heads) (d : Fin cfg.headDim) : Fin cfg.n_embd :=
  ⟨(h : ℕ) * cfg.headDim + (d : ℕ), headIdx_lt hdiv h d⟩

lemma headOf_lt {hs H E : ℕ} (hdiv : hs * H = E) (e : Fin E) :
    (e : ℕ) / hs < H := by
  have he := e.isLt
  have hhs : 0 < hs := by
    rcases Nat.eq_zero_or_pos hs with h0 | h0
    · subst h0; simp at hdiv; omega
    · exact h0
  have : (e : ℕ) < H * hs := by rw [Nat.mul_comm]; omega
  exact (Nat.div_lt_iff_lt_mul hhs).mpr this

/-- The head that output channel e belongs to after the heads are merged
back side by side: head = e / hs. -/
def headOf {cfg : ModelArgs} (hdiv : cfg.headDim * cfg.n_heads = cfg.n_embd)
    (e : Fin cfg.n_embd) : Fin cfg.n_heads :=
  ⟨(e : ℕ) / cfg.headDim, headOf_lt hdiv e⟩

/-- att = (q @ k.transpose(-2, -1)) * (1.0 / math.sqrt(k.size(-1))):
the pre-mask score of query position i against key position j in head h. -/
def attScore (P : Prims) {cfg : ModelArgs} {T : ℕ} (sa : CausalSelfAttention cfg)
    (x : Fin T → Fin cfg.n_embd → ℚ) (h : Fin cfg.n_heads) (i j : Fin T) : ℚ :=
  (∑ d : Fin cfg.headDim,
      qOf sa x i (headIdx sa.hdiv h d) * kOf sa x j (headIdx sa.hdiv h d)) *
    (1 / P.sqrt (cfg.headDim : ℚ))

/-- att.masked_fill(self.bias[:,:,:T,:T] == 0, float('-inf')): a masked
entry is none (standing for -inf). -/
def maskedAtt (P : Prims) {cfg : ModelArgs} {T : ℕ} (sa : CausalSelfAttention cfg)
    (x : Fin T → Fin cfg.n_embd → ℚ) (h : Fin cfg.n_heads) (i j : Fin T) :
    Option ℚ :=
  if biasSlice T i j = 0 then none else some (attScore P sa x h i j)

/-- exp extended to the masked value: exp(-inf) = 0. -/
def expO (P : Prims) : Option ℚ → ℚ
  | none => 0
  | some s => P.exp s

/-- att = F.softmax(att, dim=-1): row-wise softmax of the masked scores. -/
def attWeight (P : Prims) {cfg : ModelArgs} {T : ℕ} (sa : CausalSelfAttention cfg)
    (x : Fin T → Fin cfg.n_embd → ℚ) (h : Fin cfg.n_heads) (i j : Fin T) : ℚ :=
  expO P (maskedAtt P sa x h i j) / ∑ j2, expO P (maskedAtt P sa x h i j2)

/-- CausalSelfAttention.forward on one sequence: y = att @ v, heads merged
side by side (channel e reads head e / hs at inner index e % hs, i.e. value
channel e itself), then the output projection c_proj. -/
def CausalSelfAttention.forward (P : Prims) {cfg : ModelArgs} {T : ℕ}
    (sa : CausalSelfAttention cfg) (x : Fin T → Fin cfg.n_embd → ℚ) :
    Fin T → Fin cfg.n_embd → ℚ :=
  fun t => sa.c_proj.apply
    (fun e => ∑ j, attWeight P sa x (headOf sa.hdiv e) t j * vOf sa x j e)

/-- GELU, tanh-approximation variant (nn.GELU(approximate="tanh")):
0.5 * x * (1 + tanh(sqrt(2/pi) * (x + 0.044715 * x^3))). -/
def geluTanh (P : Prims) (x : ℚ) : ℚ :=
  (1 / 2) * x * (1 + P.tanh (P.sqrt2OverPi * (x + (44715 / 1000000) * x ^ 3)))

/-- FeedForward module: c_fc (expansion), GELU, c_proj (contraction). -/
structure FeedForward (n_embd hidden_dim : ℕ) where
  c_fc : Linear n_embd hidden_dim
  c_proj : Linear hidden_dim n_embd

/-- FeedForward.forward on one position: x = c_fc(x); x = gelu(x);
x = c_proj(x). -/
def FeedForward.forward (P : Prims) {E Hd : ℕ} (ff : FeedForward E Hd)
    (x : Fin E → ℚ) : Fin E → ℚ :=
  let x1 := ff.c_fc.apply x
  let x2 := fun hx => geluTanh P (x1 hx)
  ff.c_proj.apply x2

/-- The spec's description of the feed-forward sublayer, assembled from its
words: a linear expansion, the tanh-approximated GELU applied elementwise,
then a linear contraction (no normalization anywhere in between). -/
def ffSpecApply (P : Prims) {E Hd : ℕ} (ff : FeedForward E Hd)
    (x : Fin E → ℚ) : Fin E → ℚ :=
  ff.c_proj.apply (fun hx => geluTanh P (ff.c_fc.apply x hx))

/-- TransformerBlock: pre-norm residual composition; the MLP is
instantiated with hidden_dim = 4 * n_embd. -/
structure TransformerBlock (cfg : ModelArgs) where
  ln_1 : LayerNorm cfg.n_embd
  attn : CausalSelfAttention cfg
  ln_2 : LayerNorm cfg.n_embd
  mlp : FeedForward cfg.n_embd (4 * cfg.n_embd)

/-- The first assignment of TransformerBlock.forward:
x = x + self.attn(self.ln_1(x)). -/
def TransformerBlock.resid1 (P : Prims) {cfg : ModelArgs} {T : ℕ}
    (blk : TransformerBlock cfg) (x : Fin T → Fin cfg.n_embd → ℚ) :
    Fin T → Fin cfg.n_embd → ℚ :=
  fun t e => x t e + blk.attn.forward P (fun s => (blk.ln_1.apply P) (x s)) t e

/-- TransformerBlock.forward: after x = x + attn(ln_1(x)) (resid1), the
second assignment x = x + mlp(ln_2(x)). -/
def TransformerBlock.forward (P : Prims) {cfg : ModelArgs} {T : ℕ}
    (blk : TransformerBlock cfg) (x : Fin T → Fin cfg.n_embd → ℚ) :
    Fin T → Fin cfg.n_embd → ℚ :=
  fun t e => blk.resid1 P x t e +
    blk.mlp.forward P ((blk.ln_2.apply P) (blk.resid1 P x t)) e

/-- Transformer: token and position embedding tables, the stack of blocks,
final layer norm and the (bias-free, untied) lm_head. -/
structure Transformer (cfg : ModelArgs) where
  wte : Fin cfg.vocab_size → Fin cfg.n_embd → ℚ
  wpe : Fin cfg.max_seq_len → Fin cfg.n_embd → ℚ
  h : Fin cfg.n_layers → TransformerBlock cfg
  ln_f : LayerNorm cfg.n_embd
  lm_head : LinearNB cfg.n_embd cfg.vocab_size

/-- x = tok_emb + pos_emb for one sequence of the batch: token embedding
lookup plus the position embedding of positions 0..T-1 (needing T ≤ L,
which the preceding assert established). -/
def Transformer.embed {cfg : ModelArgs} (m : Transformer cfg) {T : ℕ}
    (hT : T ≤ cfg.max_seq_len) (row : Fin T → Fin cfg.vocab_size) :
    Fin T → Fin cfg.n_embd → ℚ :=
  fun t e => m.wte (row t) e + m.wpe ⟨(t : ℕ), lt_of_lt_of_le t.isLt hT⟩ e

/-- for block in self.transformer.h: x = block(x) — the blocks applied in
order 0..N-1. -/
def Transformer.blocksRun (P : Prims) {cfg : ModelArgs} (m : Transformer cfg)
    {T : ℕ} (x : Fin T → Fin cfg.n_embd → ℚ) : Fin T → Fin cfg.n_embd → ℚ :=
  (List.finRange cfg.n_layers).foldl (fun acc l => (m.h l).forward P acc) x

/-- The logits computation of Transformer.forward, after the T ≤ L assert
has passed: token plus position embeddings, the blocks applied in order
0..N-1, the final layer norm, and the lm_head projection.  Each batch row
is processed independently. -/
def Transformer.forwardCore (P : Prims) {cfg : ModelArgs}
    (m : Transformer cfg) {B T : ℕ} (hT : T ≤ cfg.max_seq_len)
    (idx : Fin B → Fin T → Fin cfg.vocab_size) :
    Fin B → Fin T → Fin cfg.vocab_size → ℚ :=
  fun b t v =>
    m.lm_head.apply ((m.ln_f.apply P) (m.blocksRun P (m.embed hT (idx b)) t)) v

/-- One token's cross-entropy against logit row z with target class t:
-log(softmax(z)[t]). -/
def ceTerm (P : Prims) {V : ℕ} (z : Fin V → ℚ) (t : Fin V) : ℚ :=
  -(P.log (P.exp (z t) / ∑ v, P.exp (z v)))

lemma flatten_pos_T {B T : ℕ} (n : Fin (B * T)) : 0 < T := by
  have h := n.isLt
  rcases Nat.eq_zero_or_pos T with h0 | h0
  · subst h0; simp at h
  · exact h0

lemma flatten_div_lt {B T : ℕ} (n : Fin (B * T)) : (n : ℕ) / T < B := by
  have h := n.isLt
  exact (Nat.div_lt_iff_lt_mul (flatten_pos_T n)).mpr h

/-- The view(-1, ...) flattening of a B×T-indexed family: flat index n maps
to batch n / T, time n % T (row-major, exactly torch's contiguous layout). -/
def flattenBT {α : Type} {B T : ℕ} (f : Fin B → Fin T → α) : Fin (B * T) → α :=
  fun n => f ⟨(n : ℕ) / T, flatten_div_lt n⟩
    ⟨(n : ℕ) % T, Nat.mod_lt _ (flatten_pos_T n)⟩

/-- F.cross_entropy(..., reduction untouched, i.e. mean) on already
flattened logits and targets: mean of the per-token cross-entropies. -/
def crossEntropyFlat (P : Prims) {BT V : ℕ} (lg : Fin BT → Fin V → ℚ)
    (tg : Fin BT → Fin V) : ℚ :=
  (∑ n, ceTerm P (lg n) (tg n)) / (BT : ℚ)

/-- loss = F.cross_entropy(logits.view(-1, V), targets.view(-1)). -/
def Transformer.lossOf (P : Prims) {B T V : ℕ}
    (logits : Fin B → Fin T → Fin V → ℚ) (tg : Fin B → Fin T → Fin V) : ℚ :=
  crossEntropyFlat P (flattenBT logits) (flattenBT tg)

/-- Transformer.forward: asserts T ≤ max_seq_len (returning none on
failure, the assertion error), produces the logits, and the loss exactly
when targets are supplied. -/
def Transformer.forward (P : Prims) {cfg : ModelArgs} (m : Transformer cfg)
    {B T : ℕ} (idx : Fin B → Fin T → Fin cfg.vocab_size)
    (targets : Option (Fin B → Fin T → Fin cfg.vocab_size)) :
    Option ((Fin B → Fin T → Fin cfg.vocab_size → ℚ) × Option ℚ) :=
  if hT : T ≤ cfg.max_seq_len then
    let logits := m.forwardCore P hT idx
    match targets with
    | none => some (logits, none)
    | some tg => some (logits, some (Transformer.lossOf P logits tg))
  else none

/-- CausalSelfAttention.__init__: computes head_dim = n_embd // n_heads
(a ZeroDivisionError, hence fatal, when n_heads = 0) and asserts
head_dim * n_heads == n_embd and n_embd % n_heads == 0; returns the module
only when the checks pass. -/
def mkCausalSelfAttention (cfg : ModelArgs)
    (ca : Linear cfg.n_embd (3 * cfg.n_embd)) (cp : Linear cfg.n_embd cfg.n_embd) :
    Option (CausalSelfAttention cfg) :=
  if cfg.n_heads = 0 then none
  else if hd : cfg.headDim * cfg.n_heads = cfg.n_embd ∧ cfg.n_embd % cfg.n_heads = 0 then
    some ⟨ca, cp, hd.1⟩
  else none

/-- The raw parameters a TransformerBlock is built from. -/
structure BlockParams (cfg : ModelArgs) where
  ln_1 : LayerNorm cfg.n_embd
  attn_c_attn : Linear cfg.n_embd (3 * cfg.n_embd)
  attn_c_proj : Linear cfg.n_embd cfg.n_embd
  ln_2 : LayerNorm cfg.n_embd
  mlp : FeedForward cfg.n_embd (4 * cfg.n_embd)

/-- TransformerBlock.__init__: constructs the attention submodule (whose
asserts may fail) and assembles the block. -/
def mkTransformerBlock (cfg : ModelArgs) (p : BlockParams cfg) :
    Option (TransformerBlock cfg) :=
  (mkCausalSelfAttention cfg p.attn_c_attn p.attn_c_proj).map
    (fun sa => ⟨p.ln_1, sa, p.ln_2, p.mlp⟩)

/-- Transformer.__init__: builds the n_layers blocks (each block's
construction may fail), the embedding tables, final norm and lm_head.
Construction of the whole model fails exactly when some block fails. -/
def mkTransformer (cfg : ModelArgs)
    (wte : Fin cfg.vocab_size → Fin cfg.n_embd → ℚ)
    (wpe : Fin cfg.max_seq_len → Fin cfg.n_embd → ℚ)
    (bp : Fin cfg.n_layers → BlockParams cfg)
    (ln_f : LayerNorm cfg.n_embd) (lm_head : LinearNB cfg.n_embd cfg.vocab_size) :
    Option (Transformer cfg) :=
  if hall : ∀ l, (mkTransformerBlock cfg (bp l)).isSome then
    some ⟨wte, wpe, fun l => (mkTransformerBlock cfg (bp l)).get (hall l), ln_f, lm_head⟩
  else none

/-! The pretrained-weight importer.  A checkpoint / state dict is modelled
as a list of keys plus a total valuation of keys to tensors; a tensor is a
shape plus an index-to-value map. -/

structure Tensor where
  shape : List ℕ
  data : List ℕ → ℚ

/-- torch .t() together with the shape[::-1] convention of the source's
assert: reverse the shape, read indices reversed. -/
def transposeT (t : Tensor) : Tensor :=
  ⟨t.shape.reverse, fun ix => t.data ix.reverse⟩

/-- A state dict: its key list (in order) and what each key maps to.
Looking up a key not in the key list is a KeyError in Python, modelled by
guarding lookups with membership in keys. -/
structure SDict where
  keys : List String
  val : String → Tensor

/-- Python str.endswith. -/
def strEndsWith (s suf : String) : Bool :=
  suf.data.isSuffixOf s.data

/-- sd_keys = [k for k in sd.keys() if not k.endswith('.attn.bias')]. -/
def filterModelKeys (ks : List String) : List String :=
  ks.filter (fun k => ¬ strEndsWith k ".attn.bias")

/-- The two filters applied to the checkpoint's keys: drop
'.attn.masked_bias' then '.attn.bias'. -/
def filterHFKeys (ks : List String) : List String :=
  (ks.filter (fun k => ¬ strEndsWith k ".attn.masked_bias")).filter
    (fun k => ¬ strEndsWith k ".attn.bias")

/-- transposed = ['attn.c_attn.weight', 'attn.c_proj.weight',
'mlp.c_fc.weight', 'mlp.c_proj.weight']. -/
def transposedSuffixes : List String :=
  ["attn.c_attn.weight", "attn.c_proj.weight", "mlp.c_fc.weight", "mlp.c_proj.weight"]

/-- any(k.endswith(w) for w in transposed). -/
def isTransposedKey (k : String) : Bool :=
  transposedSuffixes.any (fun w => strEndsWith k w)

/-- One iteration of the copy loop for key k: look the key up in the
model's state dict (KeyError when absent), check the shape (with the
reversed-shape rule for the four transposed projections, assert failure on
mismatch), and copy_ the (possibly transposed) checkpoint tensor in. -/
def copyStep (hf : SDict) (sd : SDict) (k : String) : Option SDict :=
  if k ∈ sd.keys then
    let thf := hf.val k
    let t := sd.val k
    if isTransposedKey k then
      if thf.shape.reverse = t.shape then
        some { sd with val := fun k2 => if k2 = k then transposeT thf else sd.val k2 }
      else none
    else
      if thf.shape = t.shape then
        some { sd with val := fun k2 => if k2 = k then thf else sd.val k2 }
      else none
  else none

/-- The copy loop: for k in sd_keys_hf, aborting at the first failed
assert / KeyError. -/
def copyLoop (hf : SDict) : List String → SDict → Option SDict
  | [], sd => some sd
  | k :: ks, sd =>
    match copyStep hf sd k with
    | none => none
    | some sd2 => copyLoop hf ks sd2

/-- The copy phase of Transformer.from_pretrained: filter both key lists,
assert equal counts, then run the copy loop over the checkpoint's keys.
On any failure the exception propagates and the locally constructed model
never escapes, so the caller observes no state dict at all (none). -/
def loadImport (sd hf : SDict) : Option SDict :=
  let sdk := filterModelKeys sd.keys
  let hfk := filterHFKeys hf.keys
  if hfk.length = sdk.length then copyLoop hf hfk sd
  else none

/-! The corpus batcher. -/

/-- DataLoaderLite's state: batch size B, window T, the in-memory token
stream (read once at construction from the tokenized corpus, an external
collaborator, hence a constructor argument here) and the cursor. -/
structure DataLoaderLite where
  B : ℕ
  T : ℕ
  tokens : List ℕ
  current_position : ℕ
  deriving DecidableEq

/-- DataLoaderLite.__init__: stores B, T and the token stream, cursor 0. -/
def DataLoaderLite.init (B T : ℕ) (tokens : List ℕ) : DataLoaderLite :=
  ⟨B, T, tokens, 0⟩

/-- tensor.view(B, T) of a flat list holding exactly B*T tokens:
row b, column t reads flat position b*T + t.  (Only evaluated behind the
exact-length check that view itself enforces, so the default is dead.) -/
def reshape2 (B T : ℕ) (l : List ℕ) : List (List ℕ) :=
  (List.range B).map (fun b => (List.range T).map (fun t => l.getD (b * T + t) 0))

/-- DataLoaderLite.next_batch: slice buf = tokens[pos : pos+B*T+1]
(a Python slice, silently clipped at the end of the list), view buf[:-1]
and buf[1:] as B×T (a RuntimeError — none — unless buf holds exactly
B*T+1 tokens), advance the cursor by B*T, and reset it to 0 when the next
read would run past the end of the stream. -/
def DataLoaderLite.next_batch (d : DataLoaderLite) :
    Option (List (List ℕ) × List (List ℕ) × DataLoaderLite) :=
  let buf := (d.tokens.drop d.current_position).take (d.B * d.T + 1)
  if buf.length = d.B * d.T + 1 then
    let x := reshape2 d.B d.T buf.dropLast
    let y := reshape2 d.B d.T (buf.drop 1)
    let pos1 := d.current_position + d.B * d.T
    let pos2 := if pos1 + (d.B * d.T + 1) > d.tokens.length then 0 else pos1
    some (x, y, { d with current_position := pos2 })
  else none

/-! Causality: agreement of activations on a position range is preserved by
every stage of the forward pass. -/

/-- Two per-position activation families agree at every position up to i. -/
def AgreeLe {T E : ℕ} (i : ℕ) (x y : Fin T → Fin E → ℚ) : Prop :=
  ∀ j : Fin T, (j : ℕ) ≤ i → x j = y j

lemma maskedAtt_of_le (P : Prims) {cfg : ModelArgs} {T : ℕ}
    (sa : CausalSelfAttention cfg) (x : Fin T → Fin cfg.n_embd → ℚ)
    (h : Fin cfg.n_heads) {i j : Fin T} (hji : (j : ℕ) ≤ (i : ℕ)) :
    maskedAtt P sa x h i j = some (attScore P sa x h i j) := by
  have h1 : biasSlice T i j = 1 := by simp [biasSlice, hji]
  simp [maskedAtt, h1]

lemma maskedAtt_of_gt (P : Prims) {cfg : ModelArgs} {T : ℕ}
    (sa : CausalSelfAttention cfg) (x : Fin T → Fin cfg.n_embd → ℚ)
    (h : Fin cfg.n_heads) {i j : Fin T} (hij : (i : ℕ) < (j : ℕ)) :
    maskedAtt P sa x h i j = none := by
  have h0 : biasSlice T i j = 0 := by simp [biasSlice, Nat.not_le.mpr hij]
  simp [maskedAtt, h0]

/-- A query position never gives weight to a strictly later key position. -/
lemma attWeight_future_zero (P : Prims) {cfg : ModelArgs} {T : ℕ}
    (sa : CausalSelfAttention cfg) (x : Fin T → Fin cfg.n_embd → ℚ)
    (h : Fin cfg.n_heads) {i j : Fin T} (hij : (i : ℕ) < (j : ℕ)) :
    attWeight P sa x h i j = 0 := by
  simp [attWeight, maskedAtt_of_gt P sa x h hij, expO]

lemma attScore_agree (P : Prims) {cfg : ModelArgs} {T : ℕ}
    (sa : CausalSelfAttention cfg) {x y : Fin T → Fin cfg.n_embd → ℚ} {i : ℕ}
    (hAg : AgreeLe i x y) (h : Fin cfg.n_heads) {ti tj : Fin T}
    (hi : (ti : ℕ) ≤ i) (hj : (tj : ℕ) ≤ i) :
    attScore P sa x h ti tj = attScore P sa y h ti tj := by
  simp only [attScore, qOf, kOf, qkvOf, hAg ti hi, hAg tj hj]

lemma maskedAtt_agree (P : Prims) {cfg : ModelArgs} {T : ℕ}
    (sa : CausalSelfAttention cfg) {x y : Fin T → Fin cfg.n_embd → ℚ} {i : ℕ}
    (hAg : AgreeLe i x y) (h : Fin cfg.n_heads) {ti : Fin T}
    (hi : (ti : ℕ) ≤ i) (tj : Fin T) :
    maskedAtt P sa x h ti tj = maskedAtt P sa y h ti tj := by
  rcases le_or_lt (tj : ℕ) (ti : ℕ) with hle | hgt
  · rw [maskedAtt_of_le P sa x h hle, maskedAtt_of_le P sa y h hle,
      attScore_agree P sa hAg h hi (le_trans hle hi)]
  · rw [maskedAtt_of_gt P sa x h hgt, maskedAtt_of_gt P sa y h hgt]

lemma attWeight_agree (P : Prims) {cfg : ModelArgs} {T : ℕ}
    (sa : CausalSelfAttention cfg) {x y : Fin T → Fin cfg.n_embd → ℚ} {i : ℕ}
    (hAg : AgreeLe i x y) (h : Fin cfg.n_heads) {ti : Fin T}
    (hi : (ti : ℕ) ≤ i) (tj : Fin T) :
    attWeight P sa x h ti tj = attWeight P sa y h ti tj := by
  have hsum : ∑ j2 : Fin T, expO P (maskedAtt P sa x h ti j2) =
      ∑ j2 : Fin T, expO P (maskedAtt P sa y h ti j2) :=
    Finset.sum_congr rfl (fun j2 _ => by rw [maskedAtt_agree P sa hAg h hi j2])
  unfold attWeight
  rw [maskedAtt_agree P sa hAg h hi tj, hsum]

lemma vOf_agree {cfg : ModelArgs} {T : ℕ} (sa : CausalSelfAttention cfg)
    {x y : Fin T → Fin cfg.n_embd → ℚ} {i : ℕ} (hAg : AgreeLe i x y)
    {tj : Fin T} (hj : (tj : ℕ) ≤ i) : vOf sa x tj = vOf sa y tj := by
  funext e
  simp only [vOf, qkvOf, hAg tj hj]

/-- Attention output at a position up to i depends only on the inputs at
positions up to i. -/
lemma attForward_agree (P : Prims) {cfg : ModelArgs} {T : ℕ}
    (sa : CausalSelfAttention cfg) {x y : Fin T → Fin cfg.n_embd → ℚ} {i : ℕ}
    (hAg : AgreeLe i x y) {t : Fin T} (ht : (t : ℕ) ≤ i) :
    sa.forward P x t = sa.forward P y t := by
  have hinner : (fun e => ∑ j : Fin T, attWeight P sa x (headOf sa.hdiv e) t j * vOf sa x j e)
      = (fun e => ∑ j : Fin T, attWeight P sa y (headOf sa.hdiv e) t j * vOf sa y j e) := by
    funext e
    refine Finset.sum_congr rfl (fun j _ => ?_)
    rcases le_or_lt (j : ℕ) (t : ℕ) with hle | hgt
    · rw [attWeight_agree P sa hAg _ ht j, vOf_agree sa hAg (le_trans hle ht)]
    · rw [attWeight_future_zero P sa x _ hgt, attWeight_future_zero P sa y _ hgt,
        zero_mul, zero_mul]
  unfold CausalSelfAttention.forward
  rw [hinner]

lemma resid1_agree (P : Prims) {cfg : ModelArgs} {T : ℕ}
    (blk : TransformerBlock cfg) {x y : Fin T → Fin cfg.n_embd → ℚ} {i : ℕ}
    (hAg : AgreeLe i x y) : AgreeLe i (blk.resid1 P x) (blk.resid1 P y) := by
  have hln1 : AgreeLe i (fun s => blk.ln_1.apply P (x s)) (fun s => blk.ln_1.apply P (y s)) := by
    intro s hs
    simp only [hAg s hs]
  intro t ht
  funext e
  unfold TransformerBlock.resid1
  rw [congrFun (hAg t ht) e, congrFun (attForward_agree P blk.attn hln1 ht) e]

/-- A TransformerBlock preserves agreement up to i. -/
lemma block_agree (P : Prims) {cfg : ModelArgs} {T : ℕ}
    (blk : TransformerBlock cfg) {x y : Fin T → Fin cfg.n_embd → ℚ} {i : ℕ}
    (hAg : AgreeLe i x y) : AgreeLe i (blk.forward P x) (blk.forward P y) := by
  intro t ht
  funext e
  unfold TransformerBlock.forward
  rw [congrFun (resid1_agree P blk hAg t ht) e, resid1_agree P blk hAg t ht]

lemma foldl_blocks_agree (P : Prims) {cfg : ModelArgs} {T : ℕ}
    (m : Transformer cfg) (ls : List (Fin cfg.n_layers))
    {x y : Fin T → Fin cfg.n_embd → ℚ} {i : ℕ} (hAg : AgreeLe i x y) :
    AgreeLe i (ls.foldl (fun acc l => (m.h l).forward P acc) x)
      (ls.foldl (fun acc l => (m.h l).forward P acc) y) := by
  induction ls generalizing x y with
  | nil => exact hAg
  | cons l ls ih =>
    simp only [List.foldl_cons]
    exact ih (block_agree P (m.h l) hAg)

lemma embed_agree {cfg : ModelArgs} (m : Transformer cfg) {T : ℕ}
    (hT : T ≤ cfg.max_seq_len) {row1 row2 : Fin T → Fin cfg.vocab_size} {i : ℕ}
    (hagree : ∀ j : Fin T, (j : ℕ) ≤ i → row1 j = row2 j) :
    AgreeLe i (m.embed hT row1) (m.embed hT row2) := by
  intro t ht
  funext e
  unfold Transformer.embed
  rw [hagree t ht]

/-- C1.  Causality of the forward pass: if two input batches agree (in a
given batch row b) at all positions up to i, the logits of the two forward
runs agree at every position up to i, at every vocabulary entry.  Holds
for every model parameter assignment and every choice of the abstract
scalar primitives. -/
theorem transformer_forward_causal (P : Prims) {cfg : ModelArgs}
    (m : Transformer cfg) {B T : ℕ} (hT : T ≤ cfg.max_seq_len)
    (idx1 idx2 : Fin B → Fin T → Fin cfg.vocab_size) (b : Fin B) (i : ℕ)
    (hagree : ∀ j : Fin T, (j : ℕ) ≤ i → idx1 b j = idx2 b j) :
    ∀ j : Fin T, (j : ℕ) ≤ i → ∀ v : Fin cfg.vocab_size,
      m.forwardCore P hT idx1 b j v = m.forwardCore P hT idx2 b j v := by
  intro j hj v
  have hblocks : AgreeLe i (m.blocksRun P (m.embed hT (idx1 b)))
      (m.blocksRun P (m.embed hT (idx2 b))) :=
    foldl_blocks_agree P m (List.finRange cfg.n_layers) (embed_agree m hT hagree)
  unfold Transformer.forwardCore
  rw [hblocks j hj]

lemma expO_nonneg (P : Prims) (hexp : ∀ q : ℚ, 0 < P.exp q) (o : Option ℚ) :
    0 ≤ expO P o := by
  cases o with
  | none => exact le_refl 0
  | some s => exact le_of_lt (hexp s)

/-- C9.  Every row of the post-softmax attention matrix sums to 1, for
every head and query position, whenever exp is positive (as the real exp
is): the diagonal is always unmasked, so the normalizer is positive. -/
theorem attention_softmax_rows_sum_one (P : Prims)
    (hexp : ∀ q : ℚ, 0 < P.exp q) {cfg : ModelArgs}
    (sa : CausalSelfAttention cfg) {T : ℕ} (x : Fin T → Fin cfg.n_embd → ℚ)
    (h : Fin cfg.n_heads) (i : Fin T) :
    ∑ j : Fin T, attWeight P sa x h i j = 1 := by
  have hZ : 0 < ∑ j2 : Fin T, expO P (maskedAtt P sa x h i j2) := by
    refine Finset.sum_pos' (fun j2 _ => expO_nonneg P hexp _) ⟨i, Finset.mem_univ i, ?_⟩
    rw [maskedAtt_of_le P sa x h (le_refl (i : ℕ))]
    exact hexp _
  unfold attWeight
  rw [← Finset.sum_div, div_self (ne_of_gt hZ)]

lemma ceTerm_nonneg (P : Prims) (hexp : ∀ q : ℚ, 0 < P.exp q)
    (hmono : Monotone P.log) (hlog1 : P.log 1 = 0) {V : ℕ}
    (z : Fin V → ℚ) (t : Fin V) : 0 ≤ ceTerm P z t := by
  have hZ : 0 < ∑ v : Fin V, P.exp (z v) :=
    Finset.sum_pos' (fun v _ => le_of_lt (hexp _)) ⟨t, Finset.mem_univ t, hexp _⟩
  have hle : P.exp (z t) ≤ ∑ v : Fin V, P.exp (z v) :=
    Finset.single_le_sum (fun v _ => le_of_lt (hexp _)) (Finset.mem_univ t)
  have hp : P.exp (z t) / ∑ v : Fin V, P.exp (z v) ≤ 1 := (div_le_one hZ).mpr hle
  have hlog : P.log (P.exp (z t) / ∑ v : Fin V, P.exp (z v)) ≤ 0 := by
    have := hmono hp
    rw [hlog1] at this
    exact this
  unfold ceTerm
  linarith

lemma flattenBT_apply {α : Type} {B T : ℕ} (f : Fin B → Fin T → α)
    (b : Fin B) (t : Fin T) :
    flattenBT f (finProdFinEquiv (b, t)) = f b t := by
  have hT : 0 < T := lt_of_le_of_lt (Nat.zero_le _) t.isLt
  have hval : ((finProdFinEquiv ((b : Fin B), (t : Fin T)) : Fin (B * T)) : ℕ) =
      (t : ℕ) + T * (b : ℕ) := rfl
  unfold flattenBT
  have hdiv : ((t : ℕ) + T * (b : ℕ)) / T = (b : ℕ) := by
    rw [Nat.add_mul_div_left _ _ hT, Nat.div_eq_of_lt t.isLt, Nat.zero_add]
  have hmod : ((t : ℕ) + T * (b : ℕ)) % T = (t : ℕ) := by
    rw [Nat.add_mul_mod_self_left, Nat.mod_eq_of_lt t.isLt]
  have h1 : (⟨((finProdFinEquiv (b, t) : Fin (B * T)) : ℕ) / T,
      flatten_div_lt (finProdFinEquiv (b, t))⟩ : Fin B) = b :=
    Fin.ext (by
      show ((finProdFinEquiv (b, t) : Fin (B * T)) : ℕ) / T = (b : ℕ)
      rw [hval]; exact hdiv)
  have h2 : (⟨((finProdFinEquiv (b, t) : Fin (B * T)) : ℕ) % T,
      Nat.mod_lt _ (flatten_pos_T (finProdFinEquiv (b, t)))⟩ : Fin T) = t :=
    Fin.ext (by
      show ((finProdFinEquiv (b, t) : Fin (B * T)) : ℕ) % T = (t : ℕ)
      rw [hval]; exact hmod)
  rw [h1, h2]

/-- The flattened mean cross-entropy equals the double sum over batch and
time divided by B*T. -/
lemma lossOf_eq_mean (P : Prims) {B T V : ℕ}
    (lg : Fin B → Fin T → Fin V → ℚ) (tg : Fin B → Fin T → Fin V) :
    Transformer.lossOf P lg tg =
      (∑ b : Fin B, ∑ t : Fin T, ceTerm P (lg b t) (tg b t)) / ((B * T : ℕ) : ℚ) := by
  unfold Transformer.lossOf crossEntropyFlat
  congr 1
  rw [← Equiv.sum_comp (finProdFinEquiv : Fin B × Fin T ≃ Fin (B * T))
    (fun n => ceTerm P (flattenBT lg n) (flattenBT tg n)), Fintype.sum_prod_type]
  exact Finset.sum_congr rfl (fun b _ => Finset.sum_congr rfl (fun t _ => by
    rw [flattenBT_apply, flattenBT_apply]))

/-- C2.  Transformer.forward under T ≤ L: without targets it returns the
logits (a total B×T×V family by type) and no loss; with targets it returns
the same logits together with the loss, which equals the mean token-level
cross-entropy over all B*T positions jointly (batch and time flattened
before the mean) and is non-negative (finiteness is inherent to ℚ).  The
analytic hypotheses hold for the real exp and log. -/
theorem transformer_forward_logits_loss (P : Prims)
    (hexp : ∀ q : ℚ, 0 < P.exp q) (hmono : Monotone P.log)
    (hlog1 : P.log 1 = 0) {cfg : ModelArgs} (m : Transformer cfg) {B T : ℕ}
    (hT : T ≤ cfg.max_seq_len) (idx tg : Fin B → Fin T → Fin cfg.vocab_size) :
    m.forward P idx none = some (m.forwardCore P hT idx, none)
    ∧ m.forward P idx (some tg) =
        some (m.forwardCore P hT idx,
          some (Transformer.lossOf P (m.forwardCore P hT idx) tg))
    ∧ Transformer.lossOf P (m.forwardCore P hT idx) tg =
        (∑ b : Fin B, ∑ t : Fin T,
          ceTerm P (m.forwardCore P hT idx b t) (tg b t)) / ((B * T : ℕ) : ℚ)
    ∧ 0 ≤ Transformer.lossOf P (m.forwardCore P hT idx) tg := by
  refine ⟨?_, ?_, lossOf_eq_mean P _ tg, ?_⟩
  · unfold Transformer.forward
    rw [dif_pos hT]
  · unfold Transformer.forward
    rw [dif_pos hT]
  · rw [lossOf_eq_mean P _ tg]
    refine div_nonneg ?_ (Nat.cast_nonneg _)
    refine Finset.sum_nonneg (fun b _ => Finset.sum_nonneg (fun t _ => ?_))
    exact ceTerm_nonneg P hexp hmono hlog1 _ _

/-- C3.  Transformer.forward fails (assertion, modelled as none: no output
at all, in particular no truncated output) exactly when T exceeds the
configured maximum sequence length; under T ≤ L the failure branch is
unreachable and a result is always produced. -/
theorem transformer_forward_length_check (P : Prims) {cfg : ModelArgs}
    (m : Transformer cfg) {B T : ℕ} (idx : Fin B → Fin T → Fin cfg.vocab_size)
    (tg : Option (Fin B → Fin T → Fin cfg.vocab_size)) :
    (cfg.max_seq_len < T → m.forward P idx tg = none)
    ∧ (T ≤ cfg.max_seq_len → ∃ out, m.forward P idx tg = some out) := by
  constructor
  · intro hgt
    unfold Transformer.forward
    rw [dif_neg (not_le.mpr hgt)]
  · intro hle
    unfold Transformer.forward
    rw [dif_pos hle]
    cases tg with
    | none => exact ⟨_, rfl⟩
    | some t => exact ⟨_, rfl⟩

/-! C4: the construction-time divisibility check. -/

/-- C4 counterexample.  The claim as stated fails at two degenerate
configurations: (a) n_heads = 0, n_embd = 0 — 0 divides 0, yet
CausalSelfAttention.__init__ still fails fatally (ZeroDivisionError in
n_embd // n_heads); (b) n_layers = 0 — no attention submodule is ever
constructed, so the whole model constructs fine although 2 does not
divide 1. -/
theorem attention_divisibility_counterexample :
    ((0 : ℕ) ∣ 0
      ∧ mkCausalSelfAttention ⟨2, 2, 1, 0, 0⟩
          ⟨fun _ _ => 1, fun _ => 0⟩ ⟨fun _ _ => 1, fun _ => 0⟩ = none)
    ∧ (¬ ((2 : ℕ) ∣ 1)
      ∧ (mkTransformer ⟨1, 1, 0, 2, 1⟩ (fun _ _ => 0) (fun _ _ => 0)
          (fun l => Fin.elim0 l)
          ⟨fun _ => 1, fun _ => 0⟩ ⟨fun _ _ => 1⟩).isSome = true) := by
  refine ⟨⟨dvd_refl 0, ?_⟩, ⟨by decide, ?_⟩⟩
  · unfold mkCausalSelfAttention
    rw [if_pos rfl]
  · unfold mkTransformer
    rw [dif_pos (fun l => Fin.elim0 l)]
    rfl

/-- C4 (amended).  For positive head count: if H does not divide E then
constructing the attention submodule fails fatally, and so does
constructing any model with at least one layer; if H divides E the
attention submodule (and the whole model) constructs, holding the
projections unchanged, with head dimension E/H (exactly: E/H * H = E). -/
theorem attention_divisibility_check (cfg : ModelArgs)
    (hH : 0 < cfg.n_heads)
    (ca : Linear cfg.n_embd (3 * cfg.n_embd)) (cp : Linear cfg.n_embd cfg.n_embd)
    (wte : Fin cfg.vocab_size → Fin cfg.n_embd → ℚ)
    (wpe : Fin cfg.max_seq_len → Fin cfg.n_embd → ℚ)
    (bp : Fin cfg.n_layers → BlockParams cfg)
    (ln_f : LayerNorm cfg.n_embd) (lm_head : LinearNB cfg.n_embd cfg.vocab_size) :
    (¬ cfg.n_heads ∣ cfg.n_embd →
      mkCausalSelfAttention cfg ca cp = none
      ∧ (0 < cfg.n_layers →
          mkTransformer cfg wte wpe bp ln_f lm_head = none))
    ∧ (cfg.n_heads ∣ cfg.n_embd →
      (∃ sa, mkCausalSelfAttention cfg ca cp = some sa
        ∧ sa.c_attn = ca ∧ sa.c_proj = cp)
      ∧ cfg.headDim * cfg.n_heads = cfg.n_embd
      ∧ (mkTransformer cfg wte wpe bp ln_f lm_head).isSome = true) := by
  constructor
  · intro hnd
    have hsome : mkCausalSelfAttention cfg ca cp = none := by
      unfold mkCausalSelfAttention
      rw [if_neg (Nat.pos_iff_ne_zero.mp hH)]
      rw [dif_neg]
      intro hd
      exact hnd (Nat.dvd_of_mod_eq_zero hd.2)
    refine ⟨hsome, fun hN => ?_⟩
    unfold mkTransformer
    rw [dif_neg]
    intro hall
    have := hall ⟨0, hN⟩
    unfold mkTransformerBlock at this
    have hnone : mkCausalSelfAttention cfg (bp ⟨0, hN⟩).attn_c_attn
        (bp ⟨0, hN⟩).attn_c_proj = none := by
      unfold mkCausalSelfAttention
      rw [if_neg (Nat.pos_iff_ne_zero.mp hH)]
      rw [dif_neg]
      intro hd
      exact hnd (Nat.dvd_of_mod_eq_zero hd.2)
    rw [hnone] at this
    simp at this
  · intro hdvd
    have hd1 : cfg.headDim * cfg.n_heads = cfg.n_embd := Nat.div_mul_cancel hdvd
    have hd2 : cfg.n_embd % cfg.n_heads = 0 := (Nat.mod_eq_zero_of_dvd hdvd)
    have hmk : ∀ (a : Linear cfg.n_embd (3 * cfg.n_embd))
        (p : Linear cfg.n_embd cfg.n_embd),
        mkCausalSelfAttention cfg a p = some ⟨a, p, hd1⟩ := by
      intro a p
      unfold mkCausalSelfAttention
      rw [if_neg (Nat.pos_iff_ne_zero.mp hH), dif_pos ⟨hd1, hd2⟩]
    refine ⟨⟨⟨ca, cp, hd1⟩, hmk ca cp, rfl, rfl⟩, hd1, ?_⟩
    have hall : ∀ l, (mkTransformerBlock cfg (bp l)).isSome = true := by
      intro l
      unfold mkTransformerBlock
      rw [hmk (bp l).attn_c_attn (bp l).attn_c_proj]
      rfl
    unfold mkTransformer
    rw [dif_pos hall]
    rfl

/-! C5 and C10: the corpus batcher. -/

lemma reshape2_length (B T : ℕ) (l : List ℕ) : (reshape2 B T l).length = B := by
  simp [reshape2]

lemma reshape2_row_length (B T : ℕ) (l : List ℕ) :
    ∀ r ∈ reshape2 B T l, r.length = T := by
  intro r hr
  simp only [reshape2, List.mem_map] at hr
  obtain ⟨b, _, hb⟩ := hr
  subst hb
  simp

lemma buf_length_eq (d : DataLoaderLite)
    (hin : d.current_position + d.B * d.T + 1 ≤ d.tokens.length) :
    ((d.tokens.drop d.current_position).take (d.B * d.T + 1)).length =
      d.B * d.T + 1 := by
  rw [List.length_take, List.length_drop]
  omega

/-- C5.  Under the in-bounds precondition, next_batch returns the B*T
tokens at the cursor (reshaped B×T) as inputs, the B*T tokens one past the
cursor as targets, advances the cursor by B*T and resets it to 0 exactly
when the following read would run past the end of the stream; the target
at flat position i is the input at flat position i+1. -/
theorem next_batch_spec (d : DataLoaderLite)
    (hin : d.current_position + d.B * d.T + 1 ≤ d.tokens.length) :
    d.next_batch = some
      (reshape2 d.B d.T ((d.tokens.drop d.current_position).take (d.B * d.T)),
       reshape2 d.B d.T ((d.tokens.drop (d.current_position + 1)).take (d.B * d.T)),
       { d with current_position :=
           if d.current_position + d.B * d.T + (d.B * d.T + 1) > d.tokens.length
           then 0 else d.current_position + d.B * d.T })
    ∧ ∀ i : ℕ, i + 1 < d.B * d.T →
        ((d.tokens.drop (d.current_position + 1)).take (d.B * d.T)).getD i 0 =
        ((d.tokens.drop d.current_position).take (d.B * d.T)).getD (i + 1) 0 := by
  constructor
  · have hlen := buf_length_eq d hin
    have hx : ((d.tokens.drop d.current_position).take (d.B * d.T + 1)).dropLast =
        (d.tokens.drop d.current_position).take (d.B * d.T) := by
      rw [List.dropLast_eq_take, hlen, List.take_take]
      congr 1
      omega
    have hy : ((d.tokens.drop d.current_position).take (d.B * d.T + 1)).drop 1 =
        (d.tokens.drop (d.current_position + 1)).take (d.B * d.T) := by
      rw [List.drop_take, List.drop_drop, Nat.add_sub_cancel]
    unfold DataLoaderLite.next_batch
    rw [if_pos hlen, hx, hy]
  · intro i hi1
    have hi : i < d.B * d.T := by omega
    have harith : d.current_position + 1 + i = d.current_position + (i + 1) := by
      omega
    simp only [List.getD_eq_getElem?_getD, List.getElem?_take, if_pos hi,
      if_pos hi1, List.getElem?_drop, harith]

/-- C10.  The batcher invariant: provided the stream holds at least B*T+1
tokens, the cursor satisfies cursor + B*T + 1 ≤ M at construction and
after every next_batch call, so every read succeeds (next_batch returns a
result rather than the out-of-bounds view error) and both reshapes are
well-formed B×T matrices. -/
theorem dataloader_cursor_invariant (d : DataLoaderLite)
    (hM : d.B * d.T + 1 ≤ d.tokens.length)
    (hinv : d.current_position + d.B * d.T + 1 ≤ d.tokens.length) :
    (DataLoaderLite.init d.B d.T d.tokens).current_position + d.B * d.T + 1 ≤
      d.tokens.length
    ∧ ∃ x y d2, d.next_batch = some (x, y, d2)
        ∧ d2.current_position + d2.B * d2.T + 1 ≤ d2.tokens.length
        ∧ d2.B = d.B ∧ d2.T = d.T ∧ d2.tokens = d.tokens
        ∧ x.length = d.B ∧ (∀ r ∈ x, r.length = d.T)
        ∧ y.length = d.B ∧ (∀ r ∈ y, r.length = d.T) := by
  constructor
  · show 0 + d.B * d.T + 1 ≤ d.tokens.length
    omega
  · have hlen := buf_length_eq d hinv
    refine ⟨reshape2 d.B d.T (((d.tokens.drop d.current_position).take (d.B * d.T + 1)).dropLast),
      reshape2 d.B d.T (((d.tokens.drop d.current_position).take (d.B * d.T + 1)).drop 1),
      { d with current_position :=
          if d.current_position + d.B * d.T + (d.B * d.T + 1) > d.tokens.length
          then 0 else d.current_position + d.B * d.T },
      ?_, ?_, rfl, rfl, rfl,
      reshape2_length _ _ _, reshape2_row_length _ _ _,
      reshape2_length _ _ _, reshape2_row_length _ _ _⟩
    · unfold DataLoaderLite.next_batch
      rw [if_pos hlen]
    · show (if d.current_position + d.B * d.T + (d.B * d.T + 1) > d.tokens.length
          then 0 else d.current_position + d.B * d.T) + d.B * d.T + 1 ≤
        d.tokens.length
      split_ifs with hreset
      · omega
      · omega

/-! C6 and C7: the pretrained-weight importer. -/

/-- The copy loop's precondition on one key: the key exists in the model's
state dict and the checkpoint tensor's shape matches the model tensor's
shape after the transpose rule. -/
def shapeOK (sd hf : SDict) (k : String) : Prop :=
  k ∈ sd.keys ∧
    (if isTransposedKey k then (hf.val k).shape.reverse = (sd.val k).shape
     else (hf.val k).shape = (sd.val k).shape)

instance (sd hf : SDict) (k : String) : Decidable (shapeOK sd hf k) := by
  unfold shapeOK
  infer_instance

/-- What the loop stores at key k: the transposed checkpoint tensor for
the four projection suffixes, the checkpoint tensor verbatim otherwise. -/
def copyVal (hf : SDict) (k : String) : Tensor :=
  if isTransposedKey k then transposeT (hf.val k) else hf.val k

lemma copyStep_of_ok {sd hf : SDict} {k : String} (h : shapeOK sd hf k) :
    copyStep hf sd k =
      some { sd with val := fun k2 => if k2 = k then copyVal hf k else sd.val k2 } := by
  obtain ⟨hk, hsh⟩ := h
  unfold copyStep copyVal
  by_cases ht : isTransposedKey k = true
  · rw [if_pos ht] at hsh
    simp [hk, ht, hsh]
  · rw [if_neg ht] at hsh
    simp [hk, ht, hsh]

lemma copyStep_of_not_ok {sd hf : SDict} {k : String} (h : ¬ shapeOK sd hf k) :
    copyStep hf sd k = none := by
  unfold copyStep
  by_cases hk : k ∈ sd.keys
  · rw [if_pos hk]
    by_cases ht : isTransposedKey k = true
    · rw [if_pos ht]
      rw [if_neg]
      intro hsh
      exact h ⟨hk, by rw [if_pos ht]; exact hsh⟩
    · rw [if_neg ht]
      rw [if_neg]
      intro hsh
      exact h ⟨hk, by rw [if_neg ht]; exact hsh⟩
  · rw [if_neg hk]

lemma copyVal_shape {sd hf : SDict} {k : String} (h : shapeOK sd hf k) :
    (copyVal hf k).shape = (sd.val k).shape := by
  obtain ⟨hk, hsh⟩ := h
  unfold copyVal
  by_cases ht : isTransposedKey k = true
  · rw [if_pos ht] at hsh
    rw [if_pos ht]
    exact hsh
  · rw [if_neg ht] at hsh
    rw [if_neg ht]
    exact hsh

/-- Stepping the loop never changes the key list and never changes any
entry's shape (a copied entry gets the shape it already had, by the
just-checked shape assertion). -/
lemma copyStep_preserves {sd sd2 hf : SDict} {k : String}
    (h : copyStep hf sd k = some sd2) :
    sd2.keys = sd.keys ∧ ∀ k2, (sd2.val k2).shape = (sd.val k2).shape := by
  by_cases hok : shapeOK sd hf k
  · rw [copyStep_of_ok hok] at h
    obtain rfl := Option.some.inj h
    refine ⟨rfl, fun k2 => ?_⟩
    show ((if k2 = k then copyVal hf k else sd.val k2)).shape = (sd.val k2).shape
    by_cases hk2 : k2 = k
    · subst hk2
      rw [if_pos rfl]
      exact copyVal_shape hok
    · rw [if_neg hk2]
  · rw [copyStep_of_not_ok hok] at h
    exact absurd h (by simp)

/-- shapeOK is stable under the loop's updates. -/
lemma shapeOK_of_preserved {sd sd2 hf : SDict}
    (hkeys : sd2.keys = sd.keys) (hsh : ∀ k2, (sd2.val k2).shape = (sd.val k2).shape)
    {k : String} (h : shapeOK sd hf k) : shapeOK sd2 hf k := by
  obtain ⟨hk, hcond⟩ := h
  refine ⟨by rw [hkeys]; exact hk, ?_⟩
  by_cases ht : isTransposedKey k = true
  · rw [if_pos ht] at hcond ⊢
    rw [hsh k]
    exact hcond
  · rw [if_neg ht] at hcond ⊢
    rw [hsh k]
    exact hcond

/-- Running the whole loop when every key checks out: it succeeds, copies
every listed key (transposed exactly for the four projection suffixes) and
leaves every other entry untouched. -/
lemma copyLoop_of_ok (hf : SDict) (ks : List String) (sd : SDict)
    (hok : ∀ k ∈ ks, shapeOK sd hf k) :
    ∃ sd2, copyLoop hf ks sd = some sd2
      ∧ sd2.keys = sd.keys
      ∧ (∀ k2 ∈ ks, sd2.val k2 = copyVal hf k2)
      ∧ (∀ k2, k2 ∉ ks → sd2.val k2 = sd.val k2) := by
  induction ks generalizing sd with
  | nil =>
    exact ⟨sd, rfl, rfl, fun k2 hk2 => absurd hk2 (List.not_mem_nil k2), fun _ _ => rfl⟩
  | cons k ks ih =>
    have hk := hok k (List.mem_cons_self k ks)
    set sd1 : SDict :=
      { sd with val := fun k2 => if k2 = k then copyVal hf k else sd.val k2 } with hsd1
    have hstep : copyStep hf sd k = some sd1 := copyStep_of_ok hk
    have hpres := copyStep_preserves hstep
    have hok1 : ∀ k2 ∈ ks, shapeOK sd1 hf k2 := fun k2 hk2 =>
      shapeOK_of_preserved hpres.1 hpres.2 (hok k2 (List.mem_cons_of_mem k hk2))
    obtain ⟨sd2, hloop, hkeys, hin, hout⟩ := ih sd1 hok1
    refine ⟨sd2, ?_, by rw [hkeys], ?_, ?_⟩
    · unfold copyLoop
      rw [hstep]
      exact hloop
    · intro k2 hk2
      rcases List.mem_cons.mp hk2 with h2 | h2
      · subst h2
        by_cases hmem : k2 ∈ ks
        · exact hin k2 hmem
        · rw [hout k2 hmem]
          show (if k2 = k2 then copyVal hf k2 else sd.val k2) = copyVal hf k2
          rw [if_pos rfl]
      · exact hin k2 h2
    · intro k2 hk2
      have hk2ks : k2 ∉ ks := fun h2 => hk2 (List.mem_cons_of_mem k h2)
      have hk2k : k2 ≠ k := fun h2 => hk2 (h2 ▸ List.mem_cons_self k ks)
      rw [hout k2 hk2ks]
      show (if k2 = k then copyVal hf k else sd.val k2) = sd.val k2
      rw [if_neg hk2k]

/-- If any listed key fails the check, the loop aborts with none. -/
lemma copyLoop_of_bad (hf : SDict) (ks : List String) (sd : SDict)
    (hbad : ∃ k ∈ ks, ¬ shapeOK sd hf k) :
    copyLoop hf ks sd = none := by
  induction ks generalizing sd with
  | nil =>
    obtain ⟨k, hk, _⟩ := hbad
    exact absurd hk (List.not_mem_nil k)
  | cons k ks ih =>
    by_cases hok : shapeOK sd hf k
    · set sd1 : SDict :=
        { sd with val := fun k2 => if k2 = k then copyVal hf k else sd.val k2 } with hsd1
      have hstep : copyStep hf sd k = some sd1 := copyStep_of_ok hok
      have hpres := copyStep_preserves hstep
      obtain ⟨kb, hkb, hbadk⟩ := hbad
      have hkbks : kb ∈ ks := by
        rcases List.mem_cons.mp hkb with h2 | h2
        · exact absurd (h2 ▸ hok) hbadk
        · exact h2
      have hbad1 : ∃ k2 ∈ ks, ¬ shapeOK sd1 hf k2 := by
        refine ⟨kb, hkbks, fun hc => hbadk ?_⟩
        obtain ⟨hk1, hcond⟩ := hc
        refine ⟨by rw [← hpres.1]; exact hk1, ?_⟩
        by_cases ht : isTransposedKey kb = true
        · rw [if_pos ht] at hcond ⊢
          rw [← hpres.2 kb]
          exact hcond
        · rw [if_neg ht] at hcond ⊢
          rw [← hpres.2 kb]
          exact hcond
      unfold copyLoop
      rw [hstep]
      exact ih sd1 hbad1
    · unfold copyLoop
      rw [copyStep_of_not_ok hok]

/-- C6.  When the checkpoint's (filtered) key list matches the model's in
count and every key exists with a compatible shape, the import succeeds
and stores, for exactly the keys ending in one of the four projection
suffixes, the transpose of the checkpoint tensor — every other matching
key verbatim — leaving non-imported entries (e.g. the mask buffers, which
both filters exclude) untouched; and the import fails fatally (none) when
the filtered counts differ. -/
theorem from_pretrained_transpose_rule (sd hf : SDict)
    (hlen : (filterHFKeys hf.keys).length = (filterModelKeys sd.keys).length)
    (hok : ∀ k ∈ filterHFKeys hf.keys, shapeOK sd hf k) :
    (∃ sd2, loadImport sd hf = some sd2
      ∧ (∀ k ∈ filterHFKeys hf.keys,
          (isTransposedKey k = true → sd2.val k = transposeT (hf.val k))
          ∧ (isTransposedKey k = false → sd2.val k = hf.val k))
      ∧ (∀ k, k ∉ filterHFKeys hf.keys → sd2.val k = sd.val k))
    ∧ (∀ hf2 : SDict,
        (filterHFKeys hf2.keys).length ≠ (filterModelKeys sd.keys).length →
        loadImport sd hf2 = none) := by
  constructor
  · obtain ⟨sd2, hloop, _, hin, hout⟩ :=
      copyLoop_of_ok hf (filterHFKeys hf.keys) sd hok
    refine ⟨sd2, ?_, ?_, hout⟩
    · unfold loadImport
      rw [if_pos hlen]
      exact hloop
    · intro k hk
      constructor
      · intro ht
        rw [hin k hk]
        unfold copyVal
        rw [if_pos ht]
      · intro ht
        rw [hin k hk]
        unfold copyVal
        rw [if_neg (by rw [ht]; exact Bool.false_ne_true)]
  · intro hf2 hne
    unfold loadImport
    rw [if_neg hne]

/-- C7.  A failed import — filtered parameter counts differing, a key
missing from the model's state dict, or any shape mismatching after the
transpose rule — produces none: the locally built model never escapes
from_pretrained, so the caller observes no partially copied state dict. -/
theorem from_pretrained_failure_no_result (sd hf : SDict)
    (hbad : (filterHFKeys hf.keys).length ≠ (filterModelKeys sd.keys).length
      ∨ ∃ k ∈ filterHFKeys hf.keys, ¬ shapeOK sd hf k) :
    loadImport sd hf = none := by
  rcases hbad with hne | hsh
  · unfold loadImport
    rw [if_neg hne]
  · unfold loadImport
    by_cases hlen : (filterHFKeys hf.keys).length = (filterModelKeys sd.keys).length
    · rw [if_pos hlen]
      exact copyLoop_of_bad hf _ sd hsh
    · rw [if_neg hlen]

/-- C8.  Refinement of the feed-forward sublayer against the spec's words:
FeedForward.forward is exactly a linear expansion, the tanh-approximated
GELU applied elementwise, then a linear contraction — nothing else, in
particular no learned normalization between them — and TransformerBlock
feeds the ln_2-normalized first residual through its mlp, whose hidden
width is 4 * n_embd by construction (the type of blk.mlp). -/
theorem feedforward_gelu_tanh_structure (P : Prims) {cfg : ModelArgs}
    (blk : TransformerBlock cfg) {T : ℕ} (x : Fin T → Fin cfg.n_embd → ℚ)
    (t : Fin T) (e : Fin cfg.n_embd) :
    (∀ (E Hd : ℕ) (ff : FeedForward E Hd) (y : Fin E → ℚ),
      ff.forward P y = ffSpecApply P ff y)
    ∧ blk.forward P x t e =
        blk.resid1 P x t e +
          ffSpecApply P blk.mlp ((blk.ln_2.apply P) (blk.resid1 P x t)) e :=
  ⟨fun _ _ _ _ => rfl, rfl⟩

/-! Concrete instances used by the witnesses. -/

/-- Concrete rational-valued stand-ins for the primitives: a positive
constant for exp, the monotone x - 1 with value 0 at 1 for log, the
identity for sqrt and tanh. -/
def P0 : Prims := ⟨fun _ => 1, fun q => q - 1, fun q => q, fun q => q, 1⟩

abbrev cfg0 : ModelArgs := ⟨2, 2, 1, 1, 1⟩

def linAny (a b : ℕ) : Linear a b := ⟨fun _ _ => 1, fun _ => 0⟩

def lnAny (n : ℕ) : LayerNorm n := ⟨fun _ => 1, fun _ => 0⟩

def ffAny (a b : ℕ) : FeedForward a b := ⟨linAny a b, linAny b a⟩

def lmAny (a b : ℕ) : LinearNB a b := ⟨fun _ _ => 1⟩

def sa0 : CausalSelfAttention cfg0 := ⟨linAny 1 3, linAny 1 1, rfl⟩

def blk0 : TransformerBlock cfg0 := ⟨lnAny 1, sa0, lnAny 1, ffAny 1 4⟩

def m0 : Transformer cfg0 :=
  ⟨fun tok _ => if tok = 0 then 0 else 1, fun _ _ => 0, fun _ => blk0,
    lnAny 1, lmAny 1 2⟩

def idxA : Fin 1 → Fin 2 → Fin 2 := fun _ _ => 0

def idxB : Fin 1 → Fin 2 → Fin 2 := fun _ t => if t = 0 then 0 else 1

def idx3 : Fin 1 → Fin 3 → Fin 2 := fun _ _ => 0

def x0row : Fin 2 → Fin 1 → ℚ := fun _ _ => 0

/-- C1 witness: the two concrete inputs agree at position 0 and differ at
position 1; the logits at position 0 coincide. -/
theorem transformer_forward_causal_witness :
    Transformer.forwardCore P0 m0 (by decide) idxA 0 0 0 =
      Transformer.forwardCore P0 m0 (by decide) idxB 0 0 0 :=
  transformer_forward_causal P0 m0 (by decide) idxA idxB 0 0
    (by decide) 0 (by decide) 0

/-- C2 witness at a concrete model, batch and primitive assignment. -/
theorem transformer_forward_logits_loss_witness :
    m0.forward P0 idxA none = some (Transformer.forwardCore P0 m0 (by decide) idxA, none)
    ∧ m0.forward P0 idxA (some idxB) =
        some (Transformer.forwardCore P0 m0 (by decide) idxA,
          some (Transformer.lossOf P0 (Transformer.forwardCore P0 m0 (by decide) idxA) idxB))
    ∧ Transformer.lossOf P0 (Transformer.forwardCore P0 m0 (by decide) idxA) idxB =
        (∑ b : Fin 1, ∑ t : Fin 2,
          ceTerm P0 (Transformer.forwardCore P0 m0 (by decide) idxA b t) (idxB b t)) /
          ((1 * 2 : ℕ) : ℚ)
    ∧ 0 ≤ Transformer.lossOf P0 (Transformer.forwardCore P0 m0 (by decide) idxA) idxB :=
  transformer_forward_logits_loss P0 (fun _ => one_pos)
    (fun a b hab => by simpa [P0] using sub_le_sub_right hab 1)
    (by simp [P0]) m0 (by decide) idxA idxB

/-- C3 witness: a length-3 input against the maximum 2 fails; a length-2
input succeeds. -/
theorem transformer_forward_length_check_witness :
    m0.forward P0 idx3 none = none ∧ ∃ out, m0.forward P0 idxA none = some out :=
  ⟨(transformer_forward_length_check P0 m0 idx3 none).1 (by decide),
    (transformer_forward_length_check P0 m0 idxA none).2 (by decide)⟩

abbrev cfgDiv : ModelArgs := ⟨2, 2, 1, 2, 4⟩

abbrev cfgNoDiv : ModelArgs := ⟨2, 2, 1, 2, 3⟩

def bpOf (cfg : ModelArgs) : BlockParams cfg :=
  ⟨lnAny _, linAny _ _, linAny _ _, lnAny _, ffAny _ _⟩

/-- C4 witness: with 2 heads, width 3 fails the check and width 4 passes
it (whole-model construction succeeding). -/
theorem attention_divisibility_check_witness :
    mkCausalSelfAttention cfgNoDiv (linAny 3 9) (linAny 3 3) = none
    ∧ (mkTransformer cfgDiv (fun _ _ => 0) (fun _ _ => 0) (fun _ => bpOf cfgDiv)
        (lnAny 4) (lmAny 4 2)).isSome = true :=
  ⟨((attention_divisibility_check cfgNoDiv (by decide) (linAny 3 9) (linAny 3 3)
      (fun _ _ => 0) (fun _ _ => 0) (fun _ => bpOf cfgNoDiv) (lnAny 3)
      (lmAny 3 2)).1 (by decide)).1,
    ((attention_divisibility_check cfgDiv (by decide) (linAny 4 12) (linAny 4 4)
      (fun _ _ => 0) (fun _ _ => 0) (fun _ => bpOf cfgDiv) (lnAny 4)
      (lmAny 4 2)).2 (by decide)).2.2⟩

set_option maxRecDepth 100000 in
/-- C5 witness: the spec's concrete example — stream 0..999, B = 2, T = 3,
first call. -/
theorem next_batch_spec_witness :
    (DataLoaderLite.init 2 3 (List.range 1000)).next_batch =
      some ([[0, 1, 2], [3, 4, 5]], [[1, 2, 3], [4, 5, 6]],
        ⟨2, 3, List.range 1000, 6⟩) :=
  ((next_batch_spec (DataLoaderLite.init 2 3 (List.range 1000)) (by decide)).1).trans
    (by decide)

def tC : Tensor := ⟨[2, 3], fun _ => 1⟩

def tL : Tensor := ⟨[5], fun _ => 2⟩

def sdM : SDict :=
  ⟨["h.0.attn.c_attn.weight", "h.0.ln_1.weight", "h.0.attn.bias"],
    fun k => if k = "h.0.attn.c_attn.weight" then ⟨[3, 2], fun _ => 0⟩
      else if k = "h.0.ln_1.weight" then ⟨[5], fun _ => 0⟩
      else ⟨[4, 4], fun _ => 0⟩⟩

def sdHF : SDict :=
  ⟨["h.0.attn.c_attn.weight", "h.0.ln_1.weight", "h.0.attn.masked_bias"],
    fun k => if k = "h.0.attn.c_attn.weight" then tC
      else if k = "h.0.ln_1.weight" then tL
      else ⟨[9], fun _ => 3⟩⟩

/-- A checkpoint with too few parameters. -/
def sdShort : SDict := ⟨["h.0.ln_1.weight"], fun _ => tL⟩

/-- A checkpoint whose attention in-projection has the wrong (untransposed)
shape. -/
def sdWrongShape : SDict :=
  ⟨["h.0.attn.c_attn.weight", "h.0.ln_1.weight"],
    fun k => if k = "h.0.attn.c_attn.weight" then ⟨[3, 2], fun _ => 1⟩ else tL⟩

/-- C6 witness: a well-formed two-parameter import succeeds; dropping one
parameter makes the count check fail. -/
theorem from_pretrained_transpose_rule_witness :
    (loadImport sdM sdHF).isSome = true ∧ loadImport sdM sdShort = none := by
  constructor
  · obtain ⟨sd2, h2, _, _⟩ :=
      (from_pretrained_transpose_rule sdM sdHF (by decide) (by decide)).1
    rw [h2]
    rfl
  · exact (from_pretrained_transpose_rule sdM sdHF (by decide) (by decide)).2
      sdShort (by decide)

/-- C7 witness: a shape mismatch on the transposed projection aborts
the import with no result. -/
theorem from_pretrained_failure_no_result_witness :
    loadImport sdM sdWrongShape = none :=
  from_pretrained_failure_no_result sdM sdWrongShape
    (Or.inr ⟨"h.0.attn.c_attn.weight", by decide, by decide⟩)

/-- C9 witness: a concrete attention row at T = 2 sums to 1. -/
theorem attention_softmax_rows_sum_one_witness :
    ∑ j : Fin 2, attWeight P0 sa0 x0row 0 0 j = 1 :=
  attention_softmax_rows_sum_one P0 (fun _ => one_pos) sa0 x0row 0 0

/-- C10 witness: a concrete mid-stream loader state keeps the invariant
and produces a batch. -/
theorem dataloader_cursor_invariant_witness :
    (DataLoaderLite.init 2 3 (List.range 10)).current_position + 2 * 3 + 1 ≤ 10
    ∧ ((⟨2, 3, List.range 10, 3⟩ : DataLoaderLite).next_batch).isSome = true := by
  have h := dataloader_cursor_invariant ⟨2, 3, List.range 10, 3⟩ (by decide) (by decide)
  refine ⟨h.1, ?_⟩
  obtain ⟨x, y, d2, hnb, _⟩ := h.2
  rw [hnb]
  rfl

end GPT
